import Mathlib

/-!
Verification development for the nitter-rss-proxy repository.

Go strings are modeled as `List Char` (Lean `Char` is a Unicode scalar value,
matching Go's `rune`; the code under study manipulates strings rune-wise).
The regular expressions of the source are hand-translated into explicit
scanning functions with Go's leftmost-first match semantics; the replacement
driver mirrors `Regexp.ReplaceAllStringFunc` (leftmost, non-overlapping,
continuation after the end of each match, word-boundary context taken from
the original string).
-/

set_option autoImplicit false

/-- Abbreviation turning a string literal into the rune list it denotes. -/
def cl (s : String) : List Char := s.data

/-! ### Character classes of the source regexps -/

/-- The class `[a-zA-Z0-9]`. -/
def isAlnumChar (c : Char) : Bool :=
  ('a' ≤ c && c ≤ 'z') || ('A' ≤ c && c ≤ 'Z') || ('0' ≤ c && c ≤ '9')

/-- Go's regexp `\w` (word character): `[0-9A-Za-z_]`.  Used for `\b`. -/
def isWordChar (c : Char) : Bool := isAlnumChar c || c = '_'

/-- The class `\d` = `[0-9]`. -/
def isDigitChar (c : Char) : Bool := '0' ≤ c && c ≤ '9'

/-- The class `[-a-zA-Z0-9]` (tail of the first host label). -/
def isHostMidChar (c : Char) : Bool := isAlnumChar c || c = '-'

/-- The class `[-.a-zA-Z0-9]` (rest of a hostname). -/
def isHostTailChar (c : Char) : Bool := isAlnumChar c || c = '-' || c = '.'

/-- The class `[_a-zA-Z0-9]` (a username). -/
def isUserChar (c : Char) : Bool := isAlnumChar c || c = '_'

/-- The class `[-_=a-zA-Z0-9]` (a base64url payload, RFC 4648 section 5). -/
def isEncChar (c : Char) : Bool := isAlnumChar c || c = '-' || c = '_' || c = '='

/-- The class `[-_a-zA-Z0-9]` (an image or video id). -/
def isImgIdChar (c : Char) : Bool := isAlnumChar c || c = '-' || c = '_'

/-- The class `[-_.a-zA-Z0-9]` (a media file name with extension). -/
def isNameChar (c : Char) : Bool := isAlnumChar c || c = '-' || c = '_' || c = '.'

/-! ### Primitive scanners -/

/-- Match a literal character sequence; return the remainder on success. -/
def parseLit : List Char → List Char → Option (List Char)
  | [], cs => some cs
  | _ :: _, [] => none
  | l :: ls, c :: cs => if c = l then parseLit ls cs else none

/-- Greedily take the longest run of characters in a class
(the semantics of a greedy `[...]*` / `[...]+`). -/
def takeClass (p : Char → Bool) : List Char → List Char × List Char
  | [] => ([], [])
  | c :: cs =>
    if p c then
      let r := takeClass p cs
      (c :: r.1, r.2)
    else ([], c :: cs)

/-- A `[...]+` run: greedy, at least one character. -/
def parseClass1 (p : Char → Bool) (cs : List Char) : Option (List Char × List Char) :=
  let r := takeClass p cs
  if r.1 = [] then none else some r

/-- The source's `slash` pattern `(?:/|%2F)` ("Nitter seems to incorrectly (?)
escape slashes in some cases"); returns the matched text and the remainder. -/
def parseSlashT : List Char → Option (List Char × List Char)
  | '/' :: r => some (['/'], r)
  | '%' :: '2' :: 'F' :: r => some ((['%', '2', 'F'] : List Char), r)
  | _ => none

/-- The source's `scheme` pattern `https?://`; returns matched text and remainder.
Trying the long literal before the short one is equivalent to the greedy `s?`. -/
def parseScheme (cs : List Char) : Option (List Char × List Char) :=
  match parseLit (cl "https://") cs with
  | some r => some (cl "https://", r)
  | none =>
    match parseLit (cl "http://") cs with
    | some r => some (cl "http://", r)
    | none => none

/-- The source's `host` pattern `[a-zA-Z0-9][-a-zA-Z0-9]*\.[-.a-zA-Z0-9]+`.
The two inner classes exclude `.` and the separator characters that follow a
hostname in every rule, so the greedy scan needs no backtracking. -/
def parseHost : List Char → Option (List Char × List Char)
  | [] => none
  | c :: cs =>
    if isAlnumChar c then
      let m := takeClass isHostMidChar cs
      match m.2 with
      | '.' :: r2 =>
        match parseClass1 isHostTailChar r2 with
        | some (tl, r3) => some (c :: m.1 ++ '.' :: tl, r3)
        | none => none
      | _ => none
    else none

/-- The trailing anchor `(?:$|\b)`: true at end of input or at a word boundary
between the last matched character `c` and the next input character. -/
def anchorOk (c : Char) : List Char → Bool
  | [] => true
  | d :: _ => isWordChar c != isWordChar d

/-- Specialized `(?:$|\b)` check after a character that is known to be a word
character (a digit or an extension letter). -/
def wordEndOk : List Char → Bool
  | [] => true
  | d :: _ => !isWordChar d

/-- Backtrack a greedy class run (whose reversal is the first argument) until
the trailing `(?:$|\b)` anchor holds, keeping at least `minLen` characters:
exactly the order in which a leftmost-first engine shrinks a greedy `+`/`{n,}`
before a trailing anchor. -/
def adjustEndRev (minLen : Nat) : List Char → List Char → Option (List Char × List Char)
  | [], _ => none
  | c :: revT, rest =>
    if minLen ≤ revT.length + 1 then
      if anchorOk c rest then some (List.reverse (c :: revT), rest)
      else adjustEndRev minLen revT (c :: rest)
    else none

/-- A greedy class run of at least `minLen` characters followed by `(?:$|\b)`,
with the backtracking the anchor may force. -/
def parseNameAnchored (p : Char → Bool) (minLen : Nat) (cs : List Char) :
    Option (List Char × List Char) :=
  let r := takeClass p cs
  adjustEndRev minLen r.1.reverse r.2

/-- One arbitrary character (a `.` left unescaped in the source regexp). -/
def parseAny1 : List Char → Option (Char × List Char)
  | [] => none
  | c :: cs => some (c, cs)

/-! ### Match results and the replacement driver -/

/-- Result of matching one rule at one position: the matched text (`ms[0]` in
the Go code), up to three capturing groups (`ms[1]`..`ms[3]`, empty when the
rule has fewer groups or an optional group did not participate), and the
remaining input after the match. -/
structure MatchRes where
  matched : List Char
  g1 : List Char := []
  g2 : List Char := []
  g3 : List Char := []
  rest : List Char
deriving DecidableEq

/-- The leading anchor `(?:^|\b)`: matches at position 0 (`prev = none`) or at
a word boundary between the previous character and the first character of the
candidate match. -/
def startOk (prev : Option Char) (c : Char) : Bool :=
  match prev with
  | none => true
  | some p => isWordChar p != isWordChar c

/-- Run a rule matcher at the current position, validating the leading anchor
and that the reported match is a nonempty prefix of the input (every matcher
below satisfies this; the check makes the driver's termination and the
segment-reassembly invariant independent of each matcher). -/
def checkedMatch (m : List Char → Option MatchRes) (prev : Option Char)
    (cs : List Char) : Option MatchRes :=
  match cs with
  | [] => none
  | c :: _ =>
    if startOk prev c then
      match m cs with
      | none => none
      | some r => if r.matched ≠ [] ∧ r.matched ++ r.rest = cs then some r else none
    else none

/-- Fuelled core of `ReplaceAllStringFunc`: scan left to right, replace each
(leftmost, non-overlapping) match by `f` of its match data, keep other
characters.  `prev` is the previous character of the original input (for the
`\b` anchors).  Fuel at least the input length makes the 0 case unreachable. -/
def replaceFuel (m : List Char → Option MatchRes) (f : MatchRes → List Char) :
    Nat → Option Char → List Char → List Char
  | 0, _, cs => cs
  | _ + 1, _, [] => []
  | fuel + 1, prev, c :: rest =>
    match checkedMatch m prev (c :: rest) with
    | some r => f r ++ replaceFuel m f fuel r.matched.getLast? r.rest
    | none => c :: replaceFuel m f fuel (some c) rest

/-- The matches that the scan of `replaceFuel` encounters, in order. -/
def matchesFuel (m : List Char → Option MatchRes) :
    Nat → Option Char → List Char → List MatchRes
  | 0, _, _ => []
  | _ + 1, _, [] => []
  | fuel + 1, prev, c :: rest =>
    match checkedMatch m prev (c :: rest) with
    | some r => r :: matchesFuel m fuel r.matched.getLast? r.rest
    | none => matchesFuel m fuel (some c) rest

/-- `re.ReplaceAllStringFunc(s, f)` for one rule. -/
def replaceAllL (m : List Char → Option MatchRes) (f : MatchRes → List Char)
    (cs : List Char) : List Char :=
  replaceFuel m f cs.length none cs

/-- The list of matches of one rule over a whole input. -/
def ruleMatches (m : List Char → Option MatchRes) (cs : List Char) : List MatchRes :=
  matchesFuel m cs.length none cs

/-! ### base64url decoding (`encoding/base64`, `URLEncoding.DecodeString`) -/

/-- Value of one character of the base64url alphabet (RFC 4648 section 5). -/
def b64Val (c : Char) : Option Nat :=
  if 'A' ≤ c && c ≤ 'Z' then some (c.toNat - 65)
  else if 'a' ≤ c && c ≤ 'z' then some (c.toNat - 97 + 26)
  else if '0' ≤ c && c ≤ '9' then some (c.toNat - 48 + 52)
  else if c = '-' then some 62
  else if c = '_' then some 63
  else none

/-- `base64.URLEncoding.DecodeString`: padded base64url, 4-character quantums,
`=` padding only at the end; any other shape is an error (`none`).  Returns
the decoded bytes. -/
def base64urlDecode : List Char → Option (List Nat)
  | [] => some []
  | c0 :: c1 :: c2 :: c3 :: rest =>
    (match b64Val c0, b64Val c1 with
     | some v0, some v1 =>
       if c2 = '=' then
         (if c3 = '=' && rest.isEmpty then some [v0 * 4 + v1 / 16] else none)
       else
         (match b64Val c2 with
          | some v2 =>
            if c3 = '=' then
              (if rest.isEmpty then some [v0 * 4 + v1 / 16, (v1 % 16) * 16 + v2 / 4] else none)
            else
              (match b64Val c3 with
               | some v3 =>
                 (match base64urlDecode rest with
                  | some bs =>
                    some ([v0 * 4 + v1 / 16, (v1 % 16) * 16 + v2 / 4, (v2 % 4) * 64 + v3] ++ bs)
                  | none => none)
               | none => none)
          | none => none)
     | _, _ => none)
  | _ => none

/-! ### The eight rewrite rules of `rewritePatterns` (src/unnamed/part_000) -/

/-- Rule 1 matcher: `(https?://host/pic/)enc/([-_=a-zA-Z0-9]+)` (no trailing
anchor; see the source comment about `=` followed by `"`).  `g1` is the URL up
to and including `/pic/`, `g2` the base64url payload. -/
def matchEnc (cs : List Char) : Option MatchRes :=
  match parseScheme cs with
  | none => none
  | some (sch, cs1) =>
    match parseHost cs1 with
    | none => none
    | some (h, cs2) =>
      match parseLit (cl "/pic/") cs2 with
      | none => none
      | some cs3 =>
        match parseLit (cl "enc/") cs3 with
        | none => none
        | some cs4 =>
          match parseClass1 isEncChar cs4 with
          | none => none
          | some (pay, rest) =>
            some { matched := sch ++ h ++ cl "/pic/" ++ cl "enc/" ++ pay
                   g1 := sch ++ h ++ cl "/pic/"
                   g2 := pay
                   rest := rest }

/-- Rule 1 replacement: base64url-decode the payload; on failure return the
whole match unchanged, otherwise `ms[1] + string(dec)` (bytes read as code
points; all payloads considered here decode to ASCII, where this agrees with
Go's byte-string conversion). -/
def encFn (r : MatchRes) : List Char :=
  match base64urlDecode r.g2 with
  | none => r.matched
  | some bs => r.g1 ++ bs.map (fun b => Char.ofNat b)

/-- Shared tail of rule 2 after the username alternative:
`(?:/|%2F)status(?:/|%2F)(\d+)(?:#m)?(?:$|\b)`.  After the digits, `#m` is
consumed only when the anchor still holds behind it; otherwise the `?` backs
off (the `#` that then follows the digits satisfies `\b` by itself). -/
def tweetTail (sch h user : List Char) (cs : List Char) : Option MatchRes :=
  match parseSlashT cs with
  | none => none
  | some (s1, cs1) =>
    match parseLit (cl "status") cs1 with
    | none => none
    | some cs2 =>
      match parseSlashT cs2 with
      | none => none
      | some (s2, cs3) =>
        match parseClass1 isDigitChar cs3 with
        | none => none
        | some (ds, r) =>
          match r with
          | '#' :: 'm' :: r2 =>
            if anchorOk 'm' r2 then
              some { matched := sch ++ h ++ '/' :: user ++ s1 ++ cl "status" ++ s2 ++ ds ++ cl "#m"
                     g1 := sch, g2 := user, g3 := ds, rest := r2 }
            else
              some { matched := sch ++ h ++ '/' :: user ++ s1 ++ cl "status" ++ s2 ++ ds
                     g1 := sch, g2 := user, g3 := ds, rest := '#' :: 'm' :: r2 }
          | _ =>
            if wordEndOk r then
              some { matched := sch ++ h ++ '/' :: user ++ s1 ++ cl "status" ++ s2 ++ ds
                     g1 := sch, g2 := user, g3 := ds, rest := r }
            else none

/-- Body of rule 2 after the optional scheme group (`sch` is the text the
group captured, `[]` when it did not participate):
`host/([_a-zA-Z0-9]+|i/web)(?:/|%2F)status(?:/|%2F)(\d+)(?:#m)?` with the
trailing anchor.  The username alternative is tried before the literal
`i/web`, as in leftmost-first alternation. -/
def matchTweetAS (sch : List Char) (cs1 : List Char) : Option MatchRes :=
  match parseHost cs1 with
  | none => none
  | some (h, cs2) =>
    match cs2 with
    | '/' :: cs3 =>
      match
        (match parseClass1 isUserChar cs3 with
         | some (user, cs4) => tweetTail sch h user cs4
         | none => none) with
      | some r => some r
      | none =>
        match parseLit (cl "i/web") cs3 with
        | some cs4 => tweetTail sch h (cl "i/web") cs4
        | none => none
    | _ => none

/-- Rule 2 matcher: `(https?://)?host/([_a-zA-Z0-9]+|i/web)(?:/|%2F)status(?:/|%2F)(\d+)(?:#m)?`
with the trailing anchor. -/
def matchTweet (cs : List Char) : Option MatchRes :=
  match parseScheme cs with
  | some (s, r) => matchTweetAS s r
  | none => matchTweetAS [] cs

/-- Rule 2 replacement: `twitter.com/<user>/status/<id>`, prefixed with
`https://` exactly when the optional scheme group participated. -/
def tweetFn (r : MatchRes) : List Char :=
  let u := cl "twitter.com/" ++ r.g2 ++ cl "/status/" ++ r.g3
  if r.g1 = [] then u else cl "https://" ++ u

/-- Rule 3 matcher: `https?://host/pic(?:/|%2F)media(?:/|%2F)([-_a-zA-Z0-9]+)\.(jpg|png)`
with the trailing anchor. -/
def matchImg (cs : List Char) : Option MatchRes :=
  match parseScheme cs with
  | none => none
  | some (sch, cs1) =>
    match parseHost cs1 with
    | none => none
    | some (h, cs2) =>
      match parseLit (cl "/pic") cs2 with
      | none => none
      | some cs3 =>
        match parseSlashT cs3 with
        | none => none
        | some (s1, cs4) =>
          match parseLit (cl "media") cs4 with
          | none => none
          | some cs5 =>
            match parseSlashT cs5 with
            | none => none
            | some (s2, cs6) =>
              match parseClass1 isImgIdChar cs6 with
              | none => none
              | some (iid, cs7) =>
                match cs7 with
                | '.' :: cs8 =>
                  (match parseLit (cl "jpg") cs8 with
                   | some cs9 =>
                     if wordEndOk cs9 then
                       some { matched := sch ++ h ++ cl "/pic" ++ s1 ++ cl "media" ++ s2 ++
                                iid ++ '.' :: cl "jpg"
                              g1 := iid, g2 := cl "jpg", rest := cs9 }
                     else none
                   | none =>
                     match parseLit (cl "png") cs8 with
                     | some cs9 =>
                       if wordEndOk cs9 then
                         some { matched := sch ++ h ++ cl "/pic" ++ s1 ++ cl "media" ++ s2 ++
                                  iid ++ '.' :: cl "png"
                                g1 := iid, g2 := cl "png", rest := cs9 }
                       else none
                     | none => none)
                | _ => none

/-- Rule 3 replacement: `https://pbs.twimg.com/media/<id>?format=<ext>`. -/
def imgFn (r : MatchRes) : List Char :=
  cl "https://pbs.twimg.com/media/" ++ r.g1 ++ cl "?format=" ++ r.g2

/-- Rule 4 matcher: `https?://host/pic(?:/|%2F)video.twimg.com(?:/|%2F)tweet_video(?:/|%2F)([-_.a-zA-Z0-9]+)`
with the trailing anchor; the two dots of `video.twimg.com` are unescaped in
the source and hence match any character. -/
def matchVideo (cs : List Char) : Option MatchRes :=
  match parseScheme cs with
  | none => none
  | some (sch, cs1) =>
    match parseHost cs1 with
    | none => none
    | some (h, cs2) =>
      match parseLit (cl "/pic") cs2 with
      | none => none
      | some cs3 =>
        match parseSlashT cs3 with
        | none => none
        | some (s1, cs4) =>
          match parseLit (cl "video") cs4 with
          | none => none
          | some cs5 =>
            match parseAny1 cs5 with
            | none => none
            | some (d1, cs6) =>
              match parseLit (cl "twimg") cs6 with
              | none => none
              | some cs7 =>
                match parseAny1 cs7 with
                | none => none
                | some (d2, cs8) =>
                  match parseLit (cl "com") cs8 with
                  | none => none
                  | some cs9 =>
                    match parseSlashT cs9 with
                    | none => none
                    | some (s2, cs10) =>
                      match parseLit (cl "tweet_video") cs10 with
                      | none => none
                      | some cs11 =>
                        match parseSlashT cs11 with
                        | none => none
                        | some (s3, cs12) =>
                          match parseNameAnchored isNameChar 1 cs12 with
                          | none => none
                          | some (nm, rest) =>
                            some { matched := sch ++ h ++ cl "/pic" ++ s1 ++ cl "video" ++
                                     d1 :: cl "twimg" ++ d2 :: cl "com" ++ s2 ++
                                     cl "tweet_video" ++ s3 ++ nm
                                   g1 := nm, rest := rest }

/-- Rule 4 replacement: `https://video.twimg.com/tweet_video/<name>`. -/
def videoFn (r : MatchRes) : List Char :=
  cl "https://video.twimg.com/tweet_video/" ++ r.g1

/-- Rule 5 matcher: `https?://host/pic(?:/|%2F)tweet_video_thumb(?:/|%2F)([-_.a-zA-Z0-9]+)`
with the trailing anchor. -/
def matchVideoThumb (cs : List Char) : Option MatchRes :=
  match parseScheme cs with
  | none => none
  | some (sch, cs1) =>
    match parseHost cs1 with
    | none => none
    | some (h, cs2) =>
      match parseLit (cl "/pic") cs2 with
      | none => none
      | some cs3 =>
        match parseSlashT cs3 with
        | none => none
        | some (s1, cs4) =>
          match parseLit (cl "tweet_video_thumb") cs4 with
          | none => none
          | some cs5 =>
            match parseSlashT cs5 with
            | none => none
            | some (s2, cs6) =>
              match parseNameAnchored isNameChar 1 cs6 with
              | none => none
              | some (nm, rest) =>
                some { matched := sch ++ h ++ cl "/pic" ++ s1 ++ cl "tweet_video_thumb" ++
                         s2 ++ nm
                       g1 := nm, rest := rest }

/-- Rule 5 replacement: `https://video.twimg.com/tweet_video_thumb/<name>`. -/
def thumbFn (r : MatchRes) : List Char :=
  cl "https://video.twimg.com/tweet_video_thumb/" ++ r.g1

/-- Rule 6 matcher:
`https?://host/pic(?:/|%2F)ext_tw_video_thumb(?:/|%2F)(\d+)(?:/|%2F)pu(?:/|%2F)img(?:/|%2F)([-_.a-zA-Z0-9]+)`
with the trailing anchor. -/
def matchExtThumb (cs : List Char) : Option MatchRes :=
  match parseScheme cs with
  | none => none
  | some (sch, cs1) =>
    match parseHost cs1 with
    | none => none
    | some (h, cs2) =>
      match parseLit (cl "/pic") cs2 with
      | none => none
      | some cs3 =>
        match parseSlashT cs3 with
        | none => none
        | some (s1, cs4) =>
          match parseLit (cl "ext_tw_video_thumb") cs4 with
          | none => none
          | some cs5 =>
            match parseSlashT cs5 with
            | none => none
            | some (s2, cs6) =>
              match parseClass1 isDigitChar cs6 with
              | none => none
              | some (ds, cs7) =>
                match parseSlashT cs7 with
                | none => none
                | some (s3, cs8) =>
                  match parseLit (cl "pu") cs8 with
                  | none => none
                  | some cs9 =>
                    match parseSlashT cs9 with
                    | none => none
                    | some (s4, cs10) =>
                      match parseLit (cl "img") cs10 with
                      | none => none
                      | some cs11 =>
                        match parseSlashT cs11 with
                        | none => none
                        | some (s5, cs12) =>
                          match parseNameAnchored isNameChar 1 cs12 with
                          | none => none
                          | some (nm, rest) =>
                            some { matched := sch ++ h ++ cl "/pic" ++ s1 ++
                                     cl "ext_tw_video_thumb" ++ s2 ++ ds ++ s3 ++ cl "pu" ++
                                     s4 ++ cl "img" ++ s5 ++ nm
                                   g1 := ds, g2 := nm, rest := rest }

/-- Rule 6 replacement: `https://pbs.twimg.com/ext_tw_video_thumb/<id>/pu/img/<name>`. -/
def extThumbFn (r : MatchRes) : List Char :=
  cl "https://pbs.twimg.com/ext_tw_video_thumb/" ++ r.g1 ++ cl "/pu/img/" ++ r.g2

/-- Rule 7 matcher: `(https?://)?host/watch\?v=([-_a-zA-Z0-9]+)` with the
trailing anchor. -/
def matchYoutube (cs : List Char) : Option MatchRes :=
  let sr := match parseScheme cs with
    | some (s, r) => (s, r)
    | none => (([] : List Char), cs)
  match parseHost sr.2 with
  | none => none
  | some (h, cs2) =>
    match parseLit (cl "/watch?v=") cs2 with
    | none => none
    | some cs3 =>
      match parseNameAnchored isImgIdChar 1 cs3 with
      | none => none
      | some (vid, rest) =>
        some { matched := sr.1 ++ h ++ cl "/watch?v=" ++ vid
               g1 := sr.1, g2 := vid, rest := rest }

/-- Rules 7 and 8 replacement: `youtube.com/watch?v=<id>`, prefixed with
`https://` exactly when the optional scheme group participated. -/
def youtubeFn (r : MatchRes) : List Char :=
  let u := cl "youtube.com/watch?v=" ++ r.g2
  if r.g1 = [] then u else cl "https://" ++ u

/-- Rule 8 matcher: `(https?://)?invidious\.snopyta\.org/([-_a-zA-Z0-9]{8,})`
with the trailing anchor. -/
def matchInvidious (cs : List Char) : Option MatchRes :=
  let sr := match parseScheme cs with
    | some (s, r) => (s, r)
    | none => (([] : List Char), cs)
  match parseLit (cl "invidious.snopyta.org/") sr.2 with
  | none => none
  | some cs2 =>
    match parseNameAnchored isImgIdChar 8 cs2 with
    | none => none
    | some (vid, rest) =>
      some { matched := sr.1 ++ cl "invidious.snopyta.org/" ++ vid
             g1 := sr.1, g2 := vid, rest := rest }

/-- The ordered rule table `rewritePatterns` of the source. -/
def rewritePatterns : List ((List Char → Option MatchRes) × (MatchRes → List Char)) :=
  [(matchEnc, encFn),
   (matchTweet, tweetFn),
   (matchImg, imgFn),
   (matchVideo, videoFn),
   (matchVideoThumb, thumbFn),
   (matchExtThumb, extThumbFn),
   (matchYoutube, youtubeFn),
   (matchInvidious, youtubeFn)]

/-- Application of one `(pattern, fn)` pair, as in the loop of `rewriteContent`. -/
def applyPair (cs : List Char) (p : (List Char → Option MatchRes) × (MatchRes → List Char)) :
    List Char :=
  replaceAllL p.1 p.2 cs

/-- The final `strings.ReplaceAll(s, "\n", "<br>")` of `rewriteContent`. -/
def replaceNewlines : List Char → List Char
  | [] => []
  | '\n' :: cs => cl "<br>" ++ replaceNewlines cs
  | c :: cs => c :: replaceNewlines cs

/-- `rewriteContent` (src/unnamed/part_000 lines 785-800): fold the rule
table over the content, then replace newlines.  The Go function's `error`
result is always `nil`, so it is omitted here. -/
def rewriteContentL (cs : List Char) : List Char :=
  replaceNewlines (rewritePatterns.foldl applyPair cs)

/-- The optional scheme of rule 2 of `rewritePatterns`, as a presence flag
(`none`: the group did not participate; `some false`: `http://`;
`some true`: `https://`). -/
def schemeText : Option Bool → List Char
  | none => []
  | some true => cl "https://"
  | some false => cl "http://"

/-! ### The URL canonicalizer (`rewriteTwitterURL`) -/

/-- A parsed URL in the shape `net/url` exposes to this program: scheme,
host, path, raw query and fragment. -/
structure GoURL where
  scheme : List Char
  host : List Char
  path : List Char
  query : List Char
  fragment : List Char
deriving DecidableEq

/-- ASCII control characters, which make `net/url.Parse` fail. -/
def isCtrlChar (c : Char) : Bool := c.toNat < 32 || c.toNat == 127

/-- Split at the first occurrence of a separator: the part before it, and
(on presence) the part after it. -/
def splitFirst (sep : Char) : List Char → List Char × Option (List Char)
  | [] => ([], none)
  | c :: cs =>
    if c = sep then ([], some cs)
    else
      let r := splitFirst sep cs
      (c :: r.1, r.2)

/-- Split at the first occurrence of `://`: the part before and after it. -/
def splitSep3 : List Char → Option (List Char × List Char)
  | [] => none
  | c :: cs =>
    match parseLit (cl "://") (c :: cs) with
    | some rest => some ([], rest)
    | none =>
      match splitSep3 cs with
      | some (a, b) => some (c :: a, b)
      | none => none

/-- Split a `scheme://` remainder into host (up to the first `/`) and path. -/
def hostSplit : List Char → List Char × List Char
  | [] => ([], [])
  | c :: cs =>
    if c = '/' then ([], c :: cs)
    else
      let r := hostSplit cs
      (c :: r.1, r.2)

/-- Modelled from the spec: the external URL parser (`net/url.Parse`), a
black-box collaborator outside the core.  Parsing fails on control
characters; otherwise the URL splits into `scheme://host`, path, `?query`
and `#fragment`, each possibly absent (no scheme: everything is path). -/
def parseURL (cs : List Char) : Option GoURL :=
  if cs.any isCtrlChar then none
  else
    match splitSep3 (splitFirst '#' cs).1 with
    | some (sch, rest) =>
      some { scheme := sch
             host := (hostSplit rest).1
             path := (splitFirst '?' (hostSplit rest).2).1
             query := ((splitFirst '?' (hostSplit rest).2).2).getD []
             fragment := ((splitFirst '#' cs).2).getD [] }
    | none =>
      some { scheme := []
             host := []
             path := (splitFirst '?' (splitFirst '#' cs).1).1
             query := ((splitFirst '?' (splitFirst '#' cs).1).2).getD []
             fragment := ((splitFirst '#' cs).2).getD [] }

/-- Modelled from the spec: the external URL serializer (`net/url.URL.String`)
restricted to the shapes this program produces: `scheme://` when a scheme is
set, then host, path, `?query` and `#fragment` when nonempty. -/
def urlString (u : GoURL) : List Char :=
  (if u.scheme = [] then [] else u.scheme ++ cl "://") ++ u.host ++ u.path ++
    (if u.query = [] then [] else '?' :: u.query) ++
    (if u.fragment = [] then [] else '#' :: u.fragment)

/-- `rewriteTwitterURL` (src/main.go lines 421-432): parse the URL; on
failure log and return the input unchanged; otherwise force the scheme to
`https`, the host to `twitter.com`, drop any fragment, and serialize. -/
def rewriteTwitterURLL (orig : List Char) : List Char :=
  match parseURL orig with
  | none => orig
  | some u =>
    urlString { u with scheme := cl "https", host := cl "twitter.com", fragment := [] }

/-! ### The feed rebuild (`handler.rewrite`), pure part -/

/-- `titleLen` (src/main.go line 29): max length of title text, in runes. -/
def titleLen : Nat := 80

/-- The title truncation of `handler.rewrite` (src/main.go lines 257-261):
a title of more than `titleLen` runes becomes its first `titleLen - 1` runes
followed by the literal appended at line 260.  That literal is `"â€¦"` —
bytes c3 a2 e2 82 ac c2 a6, i.e. the three runes U+00E2, U+20AC, U+00A6 (a
UTF-8 ellipsis read back through a single-byte code page) — not a single
ellipsis rune, so a truncated title has 79 + 3 = 82 runes. -/
def truncTitle (t : List Char) : List Char :=
  if titleLen < t.length then t.take (titleLen - 1) ++ ['â', '€', '¦'] else t

/-- The `-format` selector. -/
inductive FeedFormat
  | atom
  | json
  | rss
deriving DecidableEq

/-- The fields of a parsed feed item that the rebuild reads (produced by the
external parser `gofeed`; the content arrives in the `Description` field). -/
structure ParsedItem where
  title : List Char
  link : List Char
  guid : List Char
  description : List Char

/-- A parsed feed: the fields the rebuild reads. -/
structure ParsedFeed where
  title : List Char
  link : List Char
  items : List ParsedItem

/-- An emitted feed item (the fields of `feeds.Item` that the rebuild sets,
before serialization). -/
structure OutItem where
  title : List Char
  link : List Char
  id : List Char
  content : List Char
  descr : List Char

/-- An emitted feed. -/
structure OutFeed where
  title : List Char
  link : List Char
  items : List OutItem

/-- One iteration of the item loop of `handler.rewrite`: content is rewritten
when `-rewrite` is on; link and GUID go through `rewriteTwitterURL`; for JSON
output the description is the (untruncated) original title, otherwise the
content; finally the title is truncated. -/
def buildItem (doRewrite : Bool) (fmt : FeedFormat) (oi : ParsedItem) : OutItem :=
  let content := if doRewrite then rewriteContentL oi.description else oi.description
  { title := truncTitle oi.title
    link := rewriteTwitterURLL oi.link
    id := rewriteTwitterURLL oi.guid
    content := content
    descr := match fmt with
      | FeedFormat.json => oi.title
      | _ => content }

/-- The feed-level part of `handler.rewrite`: the feed link goes through
`rewriteTwitterURL` and every item through the item loop. -/
def buildFeed (doRewrite : Bool) (fmt : FeedFormat) (f : ParsedFeed) : OutFeed :=
  { title := f.title
    link := rewriteTwitterURLL f.link
    items := f.items.map (buildItem doRewrite fmt) }

/-! ### The failover loop of `handler.ServeHTTP` -/

/-- Outcome of `handler.fetch` against one instance: a transport error, or a
response with a status code and body.  `fetch` succeeds only on status 200. -/
inductive FetchOutcome
  | transportErr
  | response (status : Nat) (body : List Char)
deriving DecidableEq

/-- The success check of `handler.fetch`: a transport error or a non-200
status is an error; otherwise the body is returned. -/
def fetchOk : FetchOutcome → Option (List Char)
  | FetchOutcome.transportErr => none
  | FetchOutcome.response st b => if st = 200 then some b else none

/-- One write to the response: a chunk of feed output, or an `http.Error`
call with a status code. -/
inductive HttpWrite
  | feedOut (s : List Char)
  | httpError (status : Nat)
deriving DecidableEq

/-- One attempt of the loop body of `ServeHTTP` against instance `idx`:
`hnd.fetch` followed, on success, by `hnd.rewrite` (the parse, rebuild and
serialize stage, `none` when it fails); a `none` makes the loop continue. -/
def attemptOf (fetch : Nat → FetchOutcome) (rewriteStep : List Char → Option (List Char))
    (idx : Nat) : Option (List Char) :=
  match fetchOk (fetch idx) with
  | none => none
  | some b => rewriteStep b

/-- The instance indices the loop of `ServeHTTP` visits, in order:
`(start+i) mod len(instances)` for `i = 0 .. n-1`. -/
def failoverOrder (n s : Nat) : List Nat :=
  (List.range n).map (fun i => (s + i) % n)

/-- Try the attempts in order and short-circuit on the first success. -/
def tryInstances (att : Nat → Option (List Char)) : List Nat → Option (List Char)
  | [] => none
  | idx :: rest =>
    match att idx with
    | some out => some out
    | none => tryInstances att rest

/-- The failover loop of `ServeHTTP` (src/main.go lines 156-170), after
method/path validation: try each instance in rotated order; on the first
full success write the feed; if no instance succeeds, answer with a single
HTTP 500 error. -/
def serveFeedRequest (n s : Nat) (fetch : Nat → FetchOutcome)
    (rewriteStep : List Char → Option (List Char)) : List HttpWrite :=
  match tryInstances (attemptOf fetch rewriteStep) (failoverOrder n s) with
  | some out => [HttpWrite.feedOut out]
  | none => [HttpWrite.httpError 500]

/-! ### The failover loop with its response transcript -/

/-- One run of `hnd.rewrite` against the response writer `w`: the chunks it
wrote to `w` before returning, and whether it returned nil.  The serializers
stream to `w` (`feed.WriteRss`, `enc.Encode`, `io.WriteString`), so a run
that returns an error may already have written a prefix of the feed. -/
structure RewriteRun where
  writes : List (List Char)
  ok : Bool

/-- Whether the attempt against instance `idx` fails: the fetch fails, or
the rewrite run returns an error. -/
def attemptFailsW (fetch : Nat → FetchOutcome) (rw : List Char → RewriteRun)
    (idx : Nat) : Bool :=
  match fetchOk (fetch idx) with
  | none => true
  | some b => !(rw b).ok

/-- Whether the attempt against instance `idx` writes nothing to the
response: the fetch fails (nothing reaches the rewrite stage), or the
rewrite run failed before its first write — as `ParseString` and the atom
path (`ToXML` serializes to a string before any write) do. -/
def attemptSilent (fetch : Nat → FetchOutcome) (rw : List Char → RewriteRun)
    (idx : Nat) : Bool :=
  match fetchOk (fetch idx) with
  | none => true
  | some b => (rw b).writes.isEmpty

/-- The loop of `ServeHTTP` with the response transcript: a failed fetch
writes nothing and continues; a fetched body runs the rewrite stage, whose
writes reach the client either way; on error the loop continues (the bytes
already streamed stay in the response), on success it returns.  The second
component tells whether some attempt succeeded. -/
def tryInstancesW (fetch : Nat → FetchOutcome) (rw : List Char → RewriteRun) :
    List Nat → List HttpWrite × Bool
  | [] => ([], false)
  | idx :: rest =>
    match fetchOk (fetch idx) with
    | none => tryInstancesW fetch rw rest
    | some b =>
      if (rw b).ok then ((rw b).writes.map HttpWrite.feedOut, true)
      else
        ((rw b).writes.map HttpWrite.feedOut ++ (tryInstancesW fetch rw rest).1,
          (tryInstancesW fetch rw rest).2)

/-- `ServeHTTP` with the response transcript: when no attempt succeeds,
`http.Error(w, ..., 500)` runs after the loop, after whatever the failed
attempts already streamed to `w`. -/
def serveFeedRequestW (n s : Nat) (fetch : Nat → FetchOutcome)
    (rw : List Char → RewriteRun) : List HttpWrite :=
  if (tryInstancesW fetch rw (failoverOrder n s)).2 then
    (tryInstancesW fetch rw (failoverOrder n s)).1
  else (tryInstancesW fetch rw (failoverOrder n s)).1 ++ [HttpWrite.httpError 500]

/-! ### The instance list of `newHandler` and the static provider -/

/-- `strings.Split(instances, ",")`. -/
def splitComma : List Char → List (List Char)
  | [] => [[]]
  | c :: cs =>
    if c = ',' then [] :: splitComma cs
    else
      match splitComma cs with
      | [] => [[c]]
      | seg :: rest => (c :: seg) :: rest

/-- The instance loop of `newHandler` (src/main.go lines 108-118): skip empty
segments (the trailing-comma hack), parse each remaining segment as a URL,
fail on the first parse error. -/
def parseInstList : List (List Char) → Except (List Char) (List GoURL)
  | [] => Except.ok []
  | seg :: rest =>
    if seg = [] then parseInstList rest
    else
      match parseURL seg with
      | none => Except.error (cl "failed parsing instance URL")
      | some u =>
        match parseInstList rest with
        | Except.error e => Except.error e
        | Except.ok us => Except.ok (u :: us)

/-- The instance-list construction of `newHandler`: split the `-instances`
value on commas, build the list, and fail when it comes out empty
(src/main.go lines 119-121). -/
def newHandlerInstances (cs : List Char) : Except (List Char) (List GoURL) :=
  match parseInstList (splitComma cs) with
  | Except.error e => Except.error e
  | Except.ok [] => Except.error (cl "no instances supplied")
  | Except.ok us => Except.ok us

/-- `StaticProvider` (src/unnamed/part_001): a fixed instance sequence; the
Go field is named `instance`. -/
structure StaticProvider where
  inst : List (List Char)

/-- `StaticProvider.GetAllInstances`. -/
def GetAllInstances (p : StaticProvider) : List (List Char) := p.inst

/-- `StaticProvider.GetActiveInstances`. -/
def GetActiveInstances (p : StaticProvider) : List (List Char) := p.inst

/-! ### The rotation cursor of `ServeHTTP` (src/main.go lines 149-154) -/

/-- The four statements two concurrent requests A and B execute against the
shared cursor: `start := hnd.start` (an unlocked read) and the locked
`hnd.start = (hnd.start + 1) % len(hnd.instances)` (an atomic
increment-and-wrap). -/
inductive CursorStep
  | readA
  | readB
  | advA
  | advB
deriving DecidableEq

/-- The shared cursor plus, per request, the starting index it observed
(`obs`), the cursor value its locked advance read (`base`) and the value it
wrote (`wr`). -/
structure CursorState where
  cursor : Nat
  obsA : Option Nat := none
  obsB : Option Nat := none
  baseA : Option Nat := none
  baseB : Option Nat := none
  wrA : Option Nat := none
  wrB : Option Nat := none
deriving DecidableEq

/-- Effect of one statement on the cursor state (`n` is the instance count). -/
def cursorStep (n : Nat) (st : CursorState) : CursorStep → CursorState
  | CursorStep.readA => { st with obsA := some st.cursor }
  | CursorStep.readB => { st with obsB := some st.cursor }
  | CursorStep.advA =>
    { st with cursor := (st.cursor + 1) % n, baseA := some st.cursor,
              wrA := some ((st.cursor + 1) % n) }
  | CursorStep.advB =>
    { st with cursor := (st.cursor + 1) % n, baseB := some st.cursor,
              wrB := some ((st.cursor + 1) % n) }

/-- Run a sequence of statements. -/
def runCursor (n : Nat) : CursorState → List CursorStep → CursorState
  | st, [] => st
  | st, stp :: rest => runCursor n (cursorStep n st stp) rest

/-- Initial state with cursor `s`. -/
def initCursor (s : Nat) : CursorState := { cursor := s }

/-- All interleavings of the two requests' read-then-advance sequences (each
request reads before it advances; the program order of the source). -/
def interleavings : List (List CursorStep) :=
  [[CursorStep.readA, CursorStep.advA, CursorStep.readB, CursorStep.advB],
   [CursorStep.readA, CursorStep.readB, CursorStep.advA, CursorStep.advB],
   [CursorStep.readA, CursorStep.readB, CursorStep.advB, CursorStep.advA],
   [CursorStep.readB, CursorStep.readA, CursorStep.advA, CursorStep.advB],
   [CursorStep.readB, CursorStep.readA, CursorStep.advB, CursorStep.advA],
   [CursorStep.readB, CursorStep.advB, CursorStep.readA, CursorStep.advA]]


/-! ### Engine lemmas -/

theorem checkedMatch_some {m : List Char → Option MatchRes} {prev : Option Char}
    {cs : List Char} {r : MatchRes} (h : checkedMatch m prev cs = some r) :
    r.matched ≠ [] ∧ r.matched ++ r.rest = cs := by
  unfold checkedMatch at h
  split at h
  · exact absurd h (by simp)
  · split at h
    · split at h
      · exact absurd h (by simp)
      · split at h
        · obtain rfl := Option.some.inj h
          assumption
        · exact absurd h (by simp)
    · exact absurd h (by simp)

theorem replaceFuel_nil (m : List Char → Option MatchRes) (f : MatchRes → List Char)
    (fuel : Nat) (prev : Option Char) : replaceFuel m f fuel prev [] = [] := by
  cases fuel <;> rfl

/-- If the replacement function returns every encountered match unchanged,
the whole pass is the identity. -/
theorem replaceFuel_id (m : List Char → Option MatchRes) (f : MatchRes → List Char) :
    ∀ (fuel : Nat) (prev : Option Char) (cs : List Char),
      (∀ r ∈ matchesFuel m fuel prev cs, f r = r.matched) →
      replaceFuel m f fuel prev cs = cs := by
  intro fuel
  induction fuel with
  | zero => intro prev cs _; rfl
  | succ n ih =>
    intro prev cs hf
    match cs with
    | [] => rfl
    | c :: rest =>
      simp only [replaceFuel]
      split
      · next r heq =>
        have hprops := checkedMatch_some heq
        have hmem : matchesFuel m (n + 1) prev (c :: rest) =
            r :: matchesFuel m n r.matched.getLast? r.rest := by
          simp only [matchesFuel, heq]
        have h1 : f r = r.matched := hf r (by rw [hmem]; exact List.mem_cons_self _ _)
        have h2 := ih r.matched.getLast? r.rest
          (fun r' hr' => hf r' (by rw [hmem]; exact List.mem_cons_of_mem _ hr'))
        rw [h1, h2]
        exact hprops.2
      · next heq =>
        have hmem : matchesFuel m (n + 1) prev (c :: rest) =
            matchesFuel m n (some c) rest := by
          simp only [matchesFuel, heq]
        have h2 := ih (some c) rest (fun r' hr' => hf r' (by rw [hmem]; exact hr'))
        rw [h2]

/-- A rule that matches the whole input in one step: the pass is exactly one
replacement. -/
theorem replaceAllL_total (m : List Char → Option MatchRes) (f : MatchRes → List Char)
    {cs : List Char} {r : MatchRes} (h : checkedMatch m none cs = some r)
    (hr : r.rest = []) : replaceAllL m f cs = f r := by
  match cs with
  | [] => exact absurd h (by simp [checkedMatch])
  | c :: rest =>
    show replaceFuel m f (rest.length + 1) none (c :: rest) = f r
    simp only [replaceFuel, h, hr, replaceFuel_nil, List.append_nil]

/-! ### C3: the encoded-path scenario -/

/-- C3: On the input
`<img src="https://mirror.example/pic/enc/bWVkaWEvRm1EaXZmTFhrQUlnREFYLmpwZw==" style="max-width:250px;" />`,
the encoded-path unwrap rule (rule 1) runs first and base64url-decodes the
payload in place, leaving the `.../pic/` prefix untouched; the later
image-link rule then rewrites the decoded URL, so the full `rewriteContent`
output contains `https://pbs.twimg.com/media/FmDivfLXkAIgDAX?format=jpg`. -/
theorem c3_encoded_path_scenario :
    applyPair
        (cl "<img src=\"https://mirror.example/pic/enc/bWVkaWEvRm1EaXZmTFhrQUlnREFYLmpwZw==\" style=\"max-width:250px;\" />")
        (matchEnc, encFn) =
      cl "<img src=\"https://mirror.example/pic/media/FmDivfLXkAIgDAX.jpg\" style=\"max-width:250px;\" />"
    ∧ rewriteContentL
        (cl "<img src=\"https://mirror.example/pic/enc/bWVkaWEvRm1EaXZmTFhrQUlnREFYLmpwZw==\" style=\"max-width:250px;\" />") =
      cl "<img src=\"https://pbs.twimg.com/media/FmDivfLXkAIgDAX?format=jpg\" style=\"max-width:250px;\" />"
    ∧ cl "<img src=\"https://pbs.twimg.com/media/FmDivfLXkAIgDAX?format=jpg\" style=\"max-width:250px;\" />" =
        cl "<img src=\"" ++ cl "https://pbs.twimg.com/media/FmDivfLXkAIgDAX?format=jpg" ++
          cl "\" style=\"max-width:250px;\" />" := by
  refine ⟨by decide, by decide, by decide⟩

/-! ### C5: idempotence -/

/-- C5 counterexample: `rewriteContent` is not idempotent on its own outputs.
The payload `ZW5jL1FVRkI=` base64url-decodes to `enc/QUFB`, so the first pass
produces `https://a.example/pic/enc/QUFB` — an output of `rewriteContent`
that still contains a decodable encoded-path match — and a second pass
decodes it further to `https://a.example/pic/AAA`. -/
theorem c5_not_idempotent_on_outputs :
    rewriteContentL (cl "https://a.example/pic/enc/ZW5jL1FVRkI=") =
      cl "https://a.example/pic/enc/QUFB"
    ∧ rewriteContentL (rewriteContentL (cl "https://a.example/pic/enc/ZW5jL1FVRkI=")) ≠
        rewriteContentL (cl "https://a.example/pic/enc/ZW5jL1FVRkI=") := by
  refine ⟨by decide, by decide⟩

/-- C5 amended: `rewriteContent` is idempotent on already-canonical content,
where canonical content is a fixed point of the rewrite (no rule matches it
further and it contains no raw newline); but not every output of
`rewriteContent` is canonical in this sense (see the counterexample). -/
theorem c5_idempotent_on_canonical (cs : List Char)
    (h : rewriteContentL cs = cs) :
    rewriteContentL (rewriteContentL cs) = rewriteContentL cs := by
  rw [h]
  exact h

/-- C5 witness: the canonical status link rewritten by the engine is a fixed
point, and the amended idempotence theorem applies to it. -/
theorem c5_idempotent_on_canonical_witness :
    rewriteContentL (cl "<a href=\"https://twitter.com/foo/status/12345\">x</a>") =
      cl "<a href=\"https://twitter.com/foo/status/12345\">x</a>"
    ∧ rewriteContentL (rewriteContentL (cl "<a href=\"https://twitter.com/foo/status/12345\">x</a>")) =
        rewriteContentL (cl "<a href=\"https://twitter.com/foo/status/12345\">x</a>") :=
  ⟨by decide, c5_idempotent_on_canonical _ (by decide)⟩

/-! ### C6: a failed decode never aborts the rest of the document -/

/-- C6: an encoded-path match whose payload does not base64url-decode is
replaced by itself (`return ms[0]` in the source); consequently, when every
encoded-path match of a document has an undecodable payload, the first rule
is the identity on the document and `rewriteContent` still applies all the
remaining rules (and the newline replacement) to the whole document. -/
theorem c6_bad_decode_continues (cs : List Char)
    (h : ∀ r ∈ ruleMatches matchEnc cs, base64urlDecode r.g2 = none) :
    (∀ r : MatchRes, base64urlDecode r.g2 = none → encFn r = r.matched)
    ∧ applyPair cs (matchEnc, encFn) = cs
    ∧ rewriteContentL cs =
        replaceNewlines ((rewritePatterns.drop 1).foldl applyPair cs) := by
  have hid : applyPair cs (matchEnc, encFn) = cs :=
    replaceFuel_id matchEnc encFn cs.length none cs
      (fun r hr => by simp [encFn, h r hr])
  refine ⟨fun r hr => by simp [encFn, hr], hid, ?_⟩
  show replaceNewlines (List.foldl applyPair cs rewritePatterns) = _
  have hstep : List.foldl applyPair cs rewritePatterns =
      List.foldl applyPair (applyPair cs (matchEnc, encFn)) (rewritePatterns.drop 1) := rfl
  rw [hstep, hid]

/-- C6 witness: a document with one encoded-path match whose payload `AAA`
has invalid base64url length; the match is left unchanged while the status
link later in the document is still canonicalized. -/
theorem c6_bad_decode_continues_witness :
    (∀ r ∈ ruleMatches matchEnc (cl "x https://a.example/pic/enc/AAA and a.example/u/status/99 y"),
      base64urlDecode r.g2 = none)
    ∧ applyPair (cl "x https://a.example/pic/enc/AAA and a.example/u/status/99 y")
        (matchEnc, encFn) =
      cl "x https://a.example/pic/enc/AAA and a.example/u/status/99 y"
    ∧ rewriteContentL (cl "x https://a.example/pic/enc/AAA and a.example/u/status/99 y") =
        cl "x https://a.example/pic/enc/AAA and twitter.com/u/status/99 y" :=
  ⟨by decide,
   (c6_bad_decode_continues _ (by decide)).2.1,
   by decide⟩

/-! ### Round-trip lemmas for the status-link rule -/

theorem takeClass_append {p : Char → Bool} {xs ys : List Char}
    (hx : ∀ c ∈ xs, p c = true)
    (hy : ∀ d, ys.head? = some d → p d = false) :
    takeClass p (xs ++ ys) = (xs, ys) := by
  induction xs with
  | nil =>
    match ys with
    | [] => rfl
    | d :: ys' =>
      have hd : p d = false := hy d rfl
      simp [takeClass, hd]
  | cons x xs ih =>
    have hx0 : p x = true := hx x (by simp)
    have ih' := ih (fun c hc => hx c (by simp [hc]))
    simp [takeClass, hx0, ih']

theorem parseLit_append (ls rest : List Char) : parseLit ls (ls ++ rest) = some rest := by
  induction ls with
  | nil => rfl
  | cons l ls ih => simp [parseLit, ih]

theorem parseLit_sound {ls : List Char} :
    ∀ {cs r : List Char}, parseLit ls cs = some r → cs = ls ++ r := by
  induction ls with
  | nil => intro cs r h; cases h; rfl
  | cons l ls ih =>
    intro cs r h
    match cs with
    | [] => exact absurd h (by simp [parseLit])
    | c :: cs' =>
      rw [parseLit] at h
      by_cases hc : c = l
      · rw [if_pos hc] at h
        rw [hc, ih h]
        rfl
      · rw [if_neg hc] at h
        exact absurd h (by simp)

theorem parseScheme_none {cs : List Char} (h : (':' : Char) ∉ cs) :
    parseScheme cs = none := by
  have h1 : parseLit (cl "https://") cs = none := by
    cases h1 : parseLit (cl "https://") cs with
    | none => rfl
    | some r =>
      exact absurd (by rw [parseLit_sound h1]; exact List.mem_append_left _ (by decide)) h
  have h2 : parseLit (cl "http://") cs = none := by
    cases h2 : parseLit (cl "http://") cs with
    | none => rfl
    | some r =>
      exact absurd (by rw [parseLit_sound h2]; exact List.mem_append_left _ (by decide)) h
  unfold parseScheme
  rw [h1, h2]

theorem parseHost_append {h0 : Char} {hmid htail ys : List Char}
    (hh0 : isAlnumChar h0 = true)
    (hm : ∀ c ∈ hmid, isHostMidChar c = true)
    (ht0 : htail ≠ []) (ht : ∀ c ∈ htail, isHostTailChar c = true)
    (hy : ∀ d, ys.head? = some d → isHostTailChar d = false) :
    parseHost (h0 :: (hmid ++ ('.' :: (htail ++ ys)))) =
      some ((h0 :: hmid) ++ ('.' :: htail), ys) := by
  have hmid' : takeClass isHostMidChar (hmid ++ ('.' :: (htail ++ ys))) =
      (hmid, '.' :: (htail ++ ys)) :=
    takeClass_append hm (fun d hd => by cases hd; decide)
  have htail' : takeClass isHostTailChar (htail ++ ys) = (htail, ys) :=
    takeClass_append ht hy
  simp only [parseHost]
  rw [if_pos hh0]
  simp only [hmid', parseClass1, htail']
  rw [if_neg ht0]

theorem checkedMatch_of_full {m : List Char → Option MatchRes} {cs : List Char} {r : MatchRes}
    (h : m cs = some r) (h1 : r.matched = cs) (h2 : r.rest = []) (h3 : cs ≠ []) :
    checkedMatch m none cs = some r := by
  match cs with
  | [] => exact absurd rfl h3
  | c :: rest =>
    have hcond : r.matched ≠ [] ∧ r.matched ++ r.rest = c :: rest := by
      constructor
      · rw [h1]; exact List.cons_ne_nil c rest
      · rw [h1, h2, List.append_nil]
    simp only [checkedMatch, startOk, h]
    simp [hcond.1, hcond.2]

theorem matchTweetAS_built (sch : List Char) (h0 : Char)
    (hmid htail user id fragL : List Char)
    (hh0 : isAlnumChar h0 = true)
    (hm : ∀ c ∈ hmid, isHostMidChar c = true)
    (ht0 : htail ≠ []) (ht : ∀ c ∈ htail, isHostTailChar c = true)
    (hu0 : user ≠ []) (hu : ∀ c ∈ user, isUserChar c = true)
    (hi0 : id ≠ []) (hi : ∀ c ∈ id, isDigitChar c = true)
    (hfrag : fragL = [] ∨ fragL = ['#', 'm']) :
    matchTweetAS sch
        (h0 :: (hmid ++ ('.' :: (htail ++ ('/' :: (user ++ ('/' :: (cl "status" ++
          ('/' :: (id ++ fragL)))))))))) =
      some { matched := sch ++ ((h0 :: hmid) ++ ('.' :: htail)) ++ '/' :: user ++ ['/'] ++
               cl "status" ++ ['/'] ++ id ++ fragL
             g1 := sch, g2 := user, g3 := id, rest := [] } := by
  have hhost := @parseHost_append h0 hmid htail
    ('/' :: (user ++ ('/' :: (cl "status" ++ ('/' :: (id ++ fragL))))))
    hh0 hm ht0 ht (fun d hd => by cases hd; decide)
  have huser1 : parseClass1 isUserChar
      (user ++ ('/' :: (cl "status" ++ ('/' :: (id ++ fragL))))) =
      some (user, '/' :: (cl "status" ++ ('/' :: (id ++ fragL)))) := by
    have huser : takeClass isUserChar
        (user ++ ('/' :: (cl "status" ++ ('/' :: (id ++ fragL))))) =
        (user, '/' :: (cl "status" ++ ('/' :: (id ++ fragL)))) :=
      takeClass_append hu (fun d hd => by cases hd; decide)
    simp only [parseClass1, huser]
    rw [if_neg hu0]
  have hdig1 : parseClass1 isDigitChar (id ++ fragL) = some (id, fragL) := by
    have hdig : takeClass isDigitChar (id ++ fragL) = (id, fragL) := by
      rcases hfrag with rfl | rfl
      · exact takeClass_append hi (fun d hd => by cases hd)
      · exact takeClass_append hi (fun d hd => by cases hd; decide)
    simp only [parseClass1, hdig]
    rw [if_neg hi0]
  have htt : tweetTail sch ((h0 :: hmid) ++ ('.' :: htail)) user
      ('/' :: (cl "status" ++ ('/' :: (id ++ fragL)))) =
      some { matched := sch ++ ((h0 :: hmid) ++ ('.' :: htail)) ++ '/' :: user ++ ['/'] ++
               cl "status" ++ ['/'] ++ id ++ fragL
             g1 := sch, g2 := user, g3 := id, rest := [] } := by
    have hcm : cl "#m" = ['#', 'm'] := rfl
    rcases hfrag with rfl | rfl
    · unfold tweetTail
      simp only [parseSlashT, parseLit_append, hdig1]
      simp [wordEndOk, List.append_nil, List.append_assoc]
    · unfold tweetTail
      simp only [parseSlashT, parseLit_append, hdig1]
      simp [anchorOk, hcm, List.append_assoc]
  simp only [matchTweetAS, hhost, huser1, htt]

theorem colon_not_mem {h0 : Char} {hmid htail user id fragL : List Char}
    (hh0 : isAlnumChar h0 = true)
    (hm : ∀ c ∈ hmid, isHostMidChar c = true)
    (ht : ∀ c ∈ htail, isHostTailChar c = true)
    (hu : ∀ c ∈ user, isUserChar c = true)
    (hi : ∀ c ∈ id, isDigitChar c = true)
    (hfrag : fragL = [] ∨ fragL = ['#', 'm']) :
    (':' : Char) ∉
      h0 :: (hmid ++ ('.' :: (htail ++ ('/' :: (user ++ ('/' :: (cl "status" ++
        ('/' :: (id ++ fragL))))))))) := by
  intro hmem
  simp only [List.mem_cons, List.mem_append] at hmem
  rcases hmem with h | h | h | h | h | h | h | h | h | h | h
  · rw [← h] at hh0; exact absurd hh0 (by decide)
  · exact absurd (hm _ h) (by decide)
  · exact absurd h (by decide)
  · exact absurd (ht _ h) (by decide)
  · exact absurd h (by decide)
  · exact absurd (hu _ h) (by decide)
  · exact absurd h (by decide)
  · exact absurd h (by decide)
  · exact absurd h (by decide)
  · exact absurd (hi _ h) (by decide)
  · rcases hfrag with rfl | rfl
    · simp at h
    · exact absurd h (by decide)

theorem statusSlash_shape (X : List Char) :
    cl "/status/" ++ X = '/' :: (cl "status" ++ ('/' :: X)) := rfl

theorem matchTweet_built (sch : Option Bool) (h0 : Char)
    (hmid htail user id fragL : List Char)
    (hh0 : isAlnumChar h0 = true)
    (hm : ∀ c ∈ hmid, isHostMidChar c = true)
    (ht0 : htail ≠ []) (ht : ∀ c ∈ htail, isHostTailChar c = true)
    (hu0 : user ≠ []) (hu : ∀ c ∈ user, isUserChar c = true)
    (hi0 : id ≠ []) (hi : ∀ c ∈ id, isDigitChar c = true)
    (hfrag : fragL = [] ∨ fragL = ['#', 'm']) :
    matchTweet (schemeText sch ++
        (h0 :: (hmid ++ ('.' :: (htail ++ ('/' :: (user ++ ('/' :: (cl "status" ++
          ('/' :: (id ++ fragL))))))))))) =
      some { matched := schemeText sch ++ ((h0 :: hmid) ++ ('.' :: htail)) ++ '/' :: user ++
               ['/'] ++ cl "status" ++ ['/'] ++ id ++ fragL
             g1 := schemeText sch, g2 := user, g3 := id, rest := [] } := by
  have hAS := matchTweetAS_built (schemeText sch) h0 hmid htail user id fragL
    hh0 hm ht0 ht hu0 hu hi0 hi hfrag
  cases sch with
  | none =>
    have hns : parseScheme
        (h0 :: (hmid ++ ('.' :: (htail ++ ('/' :: (user ++ ('/' :: (cl "status" ++
          ('/' :: (id ++ fragL)))))))))) = none :=
      parseScheme_none (colon_not_mem hh0 hm ht hu hi hfrag)
    show matchTweet (([] : List Char) ++ _) = _
    rw [List.nil_append]
    unfold matchTweet
    rw [hns]
    exact hAS
  | some b =>
    cases b with
    | true =>
      show matchTweet (cl "https://" ++ _) = _
      unfold matchTweet
      rw [show parseScheme (cl "https://" ++
        (h0 :: (hmid ++ ('.' :: (htail ++ ('/' :: (user ++ ('/' :: (cl "status" ++
          ('/' :: (id ++ fragL))))))))))) =
        some (cl "https://",
          h0 :: (hmid ++ ('.' :: (htail ++ ('/' :: (user ++ ('/' :: (cl "status" ++
            ('/' :: (id ++ fragL)))))))))) from rfl]
      exact hAS
    | false =>
      show matchTweet (cl "http://" ++ _) = _
      unfold matchTweet
      rw [show parseScheme (cl "http://" ++
        (h0 :: (hmid ++ ('.' :: (htail ++ ('/' :: (user ++ ('/' :: (cl "status" ++
          ('/' :: (id ++ fragL))))))))))) =
        some (cl "http://",
          h0 :: (hmid ++ ('.' :: (htail ++ ('/' :: (user ++ ('/' :: (cl "status" ++
            ('/' :: (id ++ fragL)))))))))) from rfl]
      exact hAS

/-- C4: for every status-link match rewritten by the status-link rule of
`rewriteContent` (an optional scheme, a hostname, a username of
`[_a-zA-Z0-9]+`, `/status/`, a numeric id, and an optional trailing `#m`
fragment marker), the rule replaces the match by
`twitter.com/<username>/status/<id>`, prefixed with `https://` exactly when
the matched input included a scheme (never injecting one otherwise), and the
`#m` marker is always dropped. -/
theorem c4_status_link_rule (sch : Option Bool) (h0 : Char)
    (hmid htail user id fragL : List Char)
    (hh0 : isAlnumChar h0 = true)
    (hm : ∀ c ∈ hmid, isHostMidChar c = true)
    (ht0 : htail ≠ []) (ht : ∀ c ∈ htail, isHostTailChar c = true)
    (hu0 : user ≠ []) (hu : ∀ c ∈ user, isUserChar c = true)
    (hi0 : id ≠ []) (hi : ∀ c ∈ id, isDigitChar c = true)
    (hfrag : fragL = [] ∨ fragL = ['#', 'm']) :
    applyPair
        (schemeText sch ++ h0 :: hmid ++ '.' :: htail ++ '/' :: user ++ cl "/status/" ++
          id ++ fragL)
        (matchTweet, tweetFn) =
      (if sch.isSome then cl "https://" else []) ++ cl "twitter.com/" ++ user ++
        cl "/status/" ++ id := by
  have hmt := matchTweet_built sch h0 hmid htail user id fragL
    hh0 hm ht0 ht hu0 hu hi0 hi hfrag
  have hin : schemeText sch ++ h0 :: hmid ++ '.' :: htail ++ '/' :: user ++ cl "/status/" ++
      id ++ fragL =
      schemeText sch ++ (h0 :: (hmid ++ ('.' :: (htail ++ ('/' :: (user ++ ('/' ::
        (cl "status" ++ ('/' :: (id ++ fragL)))))))))) := by
    simp [List.append_assoc, statusSlash_shape]
  rw [hin]
  have hne : schemeText sch ++ (h0 :: (hmid ++ ('.' :: (htail ++ ('/' :: (user ++ ('/' ::
      (cl "status" ++ ('/' :: (id ++ fragL)))))))))) ≠ [] := by
    cases sch with
    | none => simp [schemeText]
    | some b =>
      cases b <;> exact fun hh => absurd (List.append_eq_nil.mp hh).1 (by decide)
  have hcm := checkedMatch_of_full hmt (by simp [List.append_assoc]) rfl hne
  rw [show applyPair
      (schemeText sch ++ (h0 :: (hmid ++ ('.' :: (htail ++ ('/' :: (user ++ ('/' ::
        (cl "status" ++ ('/' :: (id ++ fragL)))))))))))
      (matchTweet, tweetFn) =
    replaceAllL matchTweet tweetFn
      (schemeText sch ++ (h0 :: (hmid ++ ('.' :: (htail ++ ('/' :: (user ++ ('/' ::
        (cl "status" ++ ('/' :: (id ++ fragL))))))))))) from rfl]
  rw [replaceAllL_total matchTweet tweetFn hcm rfl]
  cases sch with
  | none => simp [tweetFn, schemeText]
  | some b =>
    cases b with
    | true =>
      show tweetFn _ = _
      unfold tweetFn
      rw [if_neg (show ¬ (schemeText (some true) = []) from by decide)]
      simp [List.append_assoc]
    | false =>
      show tweetFn _ = _
      unfold tweetFn
      rw [if_neg (show ¬ (schemeText (some false) = []) from by decide)]
      simp [List.append_assoc]

/-- C4 witness: the spec scenario `https://mirror.example/foo/status/12345#m`
is rewritten to `https://twitter.com/foo/status/12345` (scheme preserved,
fragment stripped). -/
theorem c4_status_link_rule_witness :
    applyPair (cl "https://mirror.example/foo/status/12345#m") (matchTweet, tweetFn) =
      cl "https://twitter.com/foo/status/12345" := by
  have h := c4_status_link_rule (some true) 'm' (cl "irror") (cl "example") (cl "foo")
    (cl "12345") ['#', 'm'] (by decide) (by decide) (by decide) (by decide) (by decide)
    (by decide) (by decide) (by decide) (Or.inr rfl)
  exact (show applyPair (cl "https://mirror.example/foo/status/12345#m")
      (matchTweet, tweetFn) =
    applyPair (schemeText (some true) ++ 'm' :: cl "irror" ++ '.' :: cl "example" ++
      '/' :: cl "foo" ++ cl "/status/" ++ cl "12345" ++ ['#', 'm'])
      (matchTweet, tweetFn) from rfl).trans (h.trans (by decide))

/-! ### C1 and C2: the failover loop -/

theorem tryInstances_append (att : Nat → Option (List Char)) (l1 l2 : List Nat)
    (idx : Nat) (out : List Char)
    (h1 : ∀ j ∈ l1, att j = none) (h2 : att idx = some out) :
    tryInstances att (l1 ++ idx :: l2) = some out := by
  induction l1 with
  | nil => simp only [List.nil_append, tryInstances, h2]
  | cons a l ih =>
    simp only [List.cons_append, tryInstances, h1 a (by simp)]
    exact ih (fun j hj => h1 j (by simp [hj]))

theorem mem_failoverOrder_lt {n s idx : Nat} (h : idx ∈ failoverOrder n s) : idx < n := by
  unfold failoverOrder at h
  rcases List.mem_map.mp h with ⟨i, hi, rfl⟩
  have hin : i < n := List.mem_range.mp hi
  exact Nat.mod_lt _ (Nat.lt_of_le_of_lt (Nat.zero_le i) hin)

/-- C1 counterexample: the rewrite stage streams to the response writer, so
an attempt that fails while serializing/writing can leave partial feed
bytes in the response before `http.Error` runs.  One instance whose fetch
succeeds but whose rewrite run fails after writing a chunk: every attempt
fails, yet the response is the partial chunk followed by the 500 — not a
single aggregate 500, and the client did receive partial feed output. -/
theorem c1_partial_write_counterexample :
    attemptFailsW (fun _ => FetchOutcome.response 200 (cl "body"))
      (fun _ => { writes := [cl "<feed"], ok := false }) 0 = true
    ∧ serveFeedRequestW 1 0 (fun _ => FetchOutcome.response 200 (cl "body"))
        (fun _ => { writes := [cl "<feed"], ok := false }) =
      [HttpWrite.feedOut (cl "<feed"), HttpWrite.httpError 500]
    ∧ serveFeedRequestW 1 0 (fun _ => FetchOutcome.response 200 (cl "body"))
        (fun _ => { writes := [cl "<feed"], ok := false }) ≠
      [HttpWrite.httpError 500] := by
  decide

theorem tryInstancesW_all_fail (fetch : Nat → FetchOutcome)
    (rw : List Char → RewriteRun) :
    ∀ l : List Nat,
      (∀ idx ∈ l, attemptFailsW fetch rw idx = true) →
      (tryInstancesW fetch rw l).2 = false
      ∧ (∀ w ∈ (tryInstancesW fetch rw l).1, ∃ c, w = HttpWrite.feedOut c)
      ∧ ((∀ idx ∈ l, attemptSilent fetch rw idx = true) →
          (tryInstancesW fetch rw l).1 = []) := by
  intro l
  induction l with
  | nil => intro _; exact ⟨rfl, by simp [tryInstancesW], fun _ => rfl⟩
  | cons idx rest ih =>
    intro hf
    have hidx := hf idx (by simp)
    have ih' := ih (fun j hj => hf j (by simp [hj]))
    cases hb : fetchOk (fetch idx) with
    | none =>
      have hstep : tryInstancesW fetch rw (idx :: rest) = tryInstancesW fetch rw rest := by
        simp only [tryInstancesW, hb]
      rw [hstep]
      exact ⟨ih'.1, ih'.2.1, fun hs => ih'.2.2 (fun j hj => hs j (by simp [hj]))⟩
    | some b =>
      have hok : (rw b).ok = false := by
        unfold attemptFailsW at hidx
        rw [hb] at hidx
        simpa using hidx
      have hstep : tryInstancesW fetch rw (idx :: rest) =
          ((rw b).writes.map HttpWrite.feedOut ++ (tryInstancesW fetch rw rest).1,
            (tryInstancesW fetch rw rest).2) := by
        simp [tryInstancesW, hb, hok]
      rw [hstep]
      refine ⟨ih'.1, ?_, ?_⟩
      · intro w hw
        rcases List.mem_append.mp hw with h1 | h1
        · rcases List.mem_map.mp h1 with ⟨c, _, rfl⟩
          exact ⟨c, rfl⟩
        · exact ih'.2.1 w h1
      · intro hs
        have hsil := hs idx (by simp)
        have hwr : (rw b).writes = [] := by
          unfold attemptSilent at hsil
          rw [hb] at hsil
          simpa using hsil
        rw [hwr]
        simp only [List.map_nil, List.nil_append]
        exact ih'.2.2 (fun j hj => hs j (by simp [hj]))

/-- C1 amended: when every instance attempt fails, the handler sends the
aggregate HTTP 500 error exactly once, after the loop, and anything else in
the response is feed bytes streamed by attempts that failed mid-write; when
moreover every failing attempt failed before its first write (transport
error, non-success status, unparseable body, or a serialization failure
detected before writing, as on the atom path), the response is exactly the
single 500 error and the client receives no partial feed output. -/
theorem c1_all_fail_single_error (n s : Nat) (fetch : Nat → FetchOutcome)
    (rw : List Char → RewriteRun)
    (hfail : ∀ idx, idx < n → attemptFailsW fetch rw idx = true) :
    serveFeedRequestW n s fetch rw =
      (tryInstancesW fetch rw (failoverOrder n s)).1 ++ [HttpWrite.httpError 500]
    ∧ (∀ w ∈ (tryInstancesW fetch rw (failoverOrder n s)).1, ∃ c, w = HttpWrite.feedOut c)
    ∧ ((∀ idx, idx < n → attemptSilent fetch rw idx = true) →
        serveFeedRequestW n s fetch rw = [HttpWrite.httpError 500]) := by
  have h := tryInstancesW_all_fail fetch rw (failoverOrder n s)
    (fun j hj => hfail j (mem_failoverOrder_lt hj))
  have hserve : serveFeedRequestW n s fetch rw =
      (tryInstancesW fetch rw (failoverOrder n s)).1 ++ [HttpWrite.httpError 500] := by
    unfold serveFeedRequestW
    rw [h.1]
    simp
  refine ⟨hserve, h.2.1, fun hs => ?_⟩
  rw [hserve, h.2.2 (fun j hj => hs j (mem_failoverOrder_lt hj)), List.nil_append]

/-- C1 amended witness: two instances, both failing with transport errors
(so nothing is ever written by an attempt), produce exactly the single
aggregate 500 response. -/
theorem c1_all_fail_single_error_witness :
    (∀ idx, idx < 2 → attemptFailsW (fun _ => FetchOutcome.transportErr)
        (fun _ => { writes := [], ok := false }) idx = true)
    ∧ serveFeedRequestW 2 0 (fun _ => FetchOutcome.transportErr)
        (fun _ => { writes := [], ok := false }) = [HttpWrite.httpError 500] :=
  ⟨by decide,
   (c1_all_fail_single_error 2 0 (fun _ => FetchOutcome.transportErr)
      (fun _ => { writes := [], ok := false }) (by decide)).2.2 (by decide)⟩

/-- C2: a failover pass over `n ≥ 1` instances tries exactly the indices
`(start+i) mod n` for `i = 0 .. n-1` in order; it visits each instance at
most once (the order has no duplicates) and never wraps past `n` (every
index is below `n`); and it stops at the first instance whose fetch and
rewrite both succeed, writing that instance's result. -/
theorem c2_failover_order (n s : Nat) (fetch : Nat → FetchOutcome)
    (rewriteStep : List Char → Option (List Char)) (hn : 1 ≤ n) :
    (failoverOrder n s).length = n
    ∧ (∀ i, i < n → (failoverOrder n s)[i]? = some ((s + i) % n))
    ∧ (failoverOrder n s).Nodup
    ∧ (∀ idx ∈ failoverOrder n s, idx < n)
    ∧ (∀ (l1 l2 : List Nat) (idx : Nat) (out : List Char),
        failoverOrder n s = l1 ++ idx :: l2 →
        (∀ j ∈ l1, attemptOf fetch rewriteStep j = none) →
        attemptOf fetch rewriteStep idx = some out →
        serveFeedRequest n s fetch rewriteStep = [HttpWrite.feedOut out]) := by
  refine ⟨by simp [failoverOrder], ?_, ?_, fun idx h => mem_failoverOrder_lt h, ?_⟩
  · intro i hi
    simp [failoverOrder, List.getElem?_map, List.getElem?_range, hi]
  · have key : ∀ i j : Nat, i ≤ j → i < n → j < n → (s + i) % n = (s + j) % n → i = j := by
      intro i j hle hi hj heq
      have hmod : Nat.ModEq n (s + i) (s + j) := heq
      have hdvd : n ∣ (s + j) - (s + i) := (Nat.modEq_iff_dvd' (by omega)).mp hmod
      have h1 : (s + j) - (s + i) = j - i := by omega
      rw [h1] at hdvd
      rcases Nat.eq_zero_or_pos (j - i) with h0 | hpos
      · omega
      · have := Nat.le_of_dvd hpos hdvd; omega
    unfold failoverOrder
    refine (List.nodup_range n).map_on ?_
    intro i hi j hj hij
    have hi' : i < n := List.mem_range.mp hi
    have hj' : j < n := List.mem_range.mp hj
    rcases Nat.le_total i j with hle | hle
    · exact key i j hle hi' hj' hij
    · exact (key j i hle hj' hi' hij.symm).symm
  · intro l1 l2 idx out heq h1 h2
    unfold serveFeedRequest
    rw [heq, tryInstances_append _ _ _ _ _ h1 h2]

/-- C2 witness: three instances, rotation start 2 (order `[2, 0, 1]`),
instance 2 failing and instance 0 succeeding: the pass stops at instance 0
and writes its result. -/
theorem c2_failover_order_witness :
    serveFeedRequest 3 2
        (fun i => if i = 0 then FetchOutcome.response 200 (cl "body")
                  else FetchOutcome.transportErr)
        (fun b => some b) =
      [HttpWrite.feedOut (cl "body")]
    ∧ (failoverOrder 3 2).Nodup
    ∧ failoverOrder 3 2 = [2, 0, 1] := by
  refine ⟨?_, (c2_failover_order 3 2 (fun _ => FetchOutcome.transportErr)
    (fun b => some b) (by decide)).2.2.1, by decide⟩
  exact (c2_failover_order 3 2
      (fun i => if i = 0 then FetchOutcome.response 200 (cl "body")
                else FetchOutcome.transportErr)
      (fun b => some b) (by decide)).2.2.2.2
    [2] [1] 0 (cl "body") (by decide) (by decide) (by decide)

/-! ### C7: the URL canonicalizer -/

theorem sep_not_mem_splitFirst_fst (sep : Char) (cs : List Char) :
    sep ∉ (splitFirst sep cs).1 := by
  induction cs with
  | nil => simp [splitFirst]
  | cons a cs ih =>
    by_cases h : a = sep
    · simp [splitFirst, h]
    · simp only [splitFirst, if_neg h]
      intro hmem
      rcases List.mem_cons.mp hmem with h1 | h1
      · exact h h1.symm
      · exact ih h1

theorem mem_splitFirst_fst {sep c : Char} {cs : List Char}
    (h : c ∈ (splitFirst sep cs).1) : c ∈ cs := by
  induction cs with
  | nil => simp [splitFirst] at h
  | cons a cs ih =>
    by_cases ha : a = sep
    · simp [splitFirst, ha] at h
    · simp only [splitFirst, if_neg ha] at h
      rcases List.mem_cons.mp h with h1 | h1
      · simp [h1]
      · simp [ih h1]

theorem mem_splitFirst_snd {sep c : Char} {cs r : List Char}
    (h : (splitFirst sep cs).2 = some r) (hc : c ∈ r) : c ∈ cs := by
  induction cs generalizing r with
  | nil => simp [splitFirst] at h
  | cons a cs ih =>
    by_cases ha : a = sep
    · simp only [splitFirst, if_pos ha] at h
      cases h
      simp [hc]
    · simp only [splitFirst, if_neg ha] at h
      exact List.mem_cons_of_mem _ (ih h hc)

theorem splitSep3_cons (c0 : Char) (cs : List Char) :
    splitSep3 (c0 :: cs) =
      (match parseLit (cl "://") (c0 :: cs) with
       | some rest => some (([] : List Char), rest)
       | none =>
         match splitSep3 cs with
         | some (a, b) => some (c0 :: a, b)
         | none => none) := rfl

theorem splitSep3_sound :
    ∀ {cs a b : List Char}, splitSep3 cs = some (a, b) →
      cs = a ++ ':' :: '/' :: '/' :: b := by
  intro cs
  induction cs with
  | nil => intro a b h; simp [splitSep3] at h
  | cons c0 cs ih =>
    intro a b h
    rw [splitSep3_cons] at h
    cases hpl : parseLit (cl "://") (c0 :: cs) with
    | some rest =>
      simp only [hpl] at h
      cases h
      have h2 := parseLit_sound hpl
      exact h2
    | none =>
      simp only [hpl] at h
      cases hss : splitSep3 cs with
      | some p =>
        obtain ⟨a', b'⟩ := p
        simp only [hss] at h
        cases h
        rw [List.cons_append, ← ih hss]
      | none =>
        simp only [hss] at h
        exact absurd h (by simp)

theorem mem_splitSep3_snd {c : Char} {cs a b : List Char}
    (h : splitSep3 cs = some (a, b)) (hc : c ∈ b) : c ∈ cs := by
  rw [splitSep3_sound h]
  simp [hc]

theorem hostSplit_sound (cs : List Char) : (hostSplit cs).1 ++ (hostSplit cs).2 = cs := by
  induction cs with
  | nil => rfl
  | cons c cs ih =>
    by_cases h : c = '/'
    · simp [hostSplit, h]
    · simp only [hostSplit, if_neg h]
      simp [ih]

theorem mem_hostSplit_snd {c : Char} {cs : List Char}
    (h : c ∈ (hostSplit cs).2) : c ∈ cs := by
  rw [← hostSplit_sound cs]
  exact List.mem_append_right _ h

theorem parseURL_no_hash {cs : List Char} {u : GoURL} (h : parseURL cs = some u) :
    ('#' : Char) ∉ u.path ∧ ('#' : Char) ∉ u.query := by
  unfold parseURL at h
  split at h
  · exact absurd h (by simp)
  · split at h
    · next sch rest hsp =>
      obtain rfl := (Option.some.inj h).symm
      constructor
      · intro hmem
        have h1 : ('#' : Char) ∈ (hostSplit rest).2 := mem_splitFirst_fst hmem
        have h2 : ('#' : Char) ∈ rest := mem_hostSplit_snd h1
        have h3 : ('#' : Char) ∈ (splitFirst '#' cs).1 := mem_splitSep3_snd hsp (by simp [h2])
        exact sep_not_mem_splitFirst_fst '#' cs h3
      · intro hmem
        cases hq : ((splitFirst '?' (hostSplit rest).2).2) with
        | none => rw [hq] at hmem; simp at hmem
        | some q =>
          rw [hq] at hmem
          simp only [Option.getD_some] at hmem
          have h1 : ('#' : Char) ∈ (hostSplit rest).2 := mem_splitFirst_snd hq hmem
          have h2 : ('#' : Char) ∈ rest := mem_hostSplit_snd h1
          have h3 : ('#' : Char) ∈ (splitFirst '#' cs).1 := mem_splitSep3_snd hsp (by simp [h2])
          exact sep_not_mem_splitFirst_fst '#' cs h3
    · next hsp =>
      obtain rfl := (Option.some.inj h).symm
      constructor
      · intro hmem
        exact sep_not_mem_splitFirst_fst '#' cs (mem_splitFirst_fst hmem)
      · intro hmem
        cases hq : ((splitFirst '?' (splitFirst '#' cs).1).2) with
        | none => rw [hq] at hmem; simp at hmem
        | some q =>
          rw [hq] at hmem
          simp only [Option.getD_some] at hmem
          exact sep_not_mem_splitFirst_fst '#' cs (mem_splitFirst_snd hq hmem)

theorem httpsTwitter_shape (X : List Char) :
    cl "https" ++ (cl "://" ++ (cl "twitter.com" ++ X)) = cl "https://twitter.com" ++ X := rfl

/-- C7: `rewriteTwitterURL` returns its input unchanged when the URL does
not parse; otherwise the result is the URL with scheme forced to `https`,
host forced to `twitter.com`, and any fragment stripped (the result contains
no `#`); and the feed rebuild applies it to the feed-level link, to every
item link, and to every item id/GUID. -/
theorem c7_rewrite_twitter_url (cs : List Char) :
    (parseURL cs = none → rewriteTwitterURLL cs = cs)
    ∧ (∀ u : GoURL, parseURL cs = some u →
        rewriteTwitterURLL cs =
          cl "https://twitter.com" ++ u.path ++
            (if u.query = [] then [] else '?' :: u.query)
        ∧ ('#' : Char) ∉ rewriteTwitterURLL cs)
    ∧ (∀ (d : Bool) (fmt : FeedFormat) (f : ParsedFeed),
        (buildFeed d fmt f).link = rewriteTwitterURLL f.link
        ∧ ∀ oi : ParsedItem,
            (buildItem d fmt oi).link = rewriteTwitterURLL oi.link
            ∧ (buildItem d fmt oi).id = rewriteTwitterURLL oi.guid) := by
  refine ⟨?_, ?_, fun d fmt f => ⟨rfl, fun oi => ⟨rfl, rfl⟩⟩⟩
  · intro h
    unfold rewriteTwitterURLL
    rw [h]
  · intro u hu
    have heq : rewriteTwitterURLL cs =
        cl "https://twitter.com" ++ u.path ++
          (if u.query = [] then [] else '?' :: u.query) := by
      unfold rewriteTwitterURLL
      rw [hu]
      unfold urlString
      simp only
      rw [if_neg (show ¬ ((cl "https" : List Char) = []) from by decide)]
      simp [List.append_assoc, httpsTwitter_shape]
    refine ⟨heq, ?_⟩
    rw [heq]
    intro hmem
    have hph := parseURL_no_hash hu
    rcases List.mem_append.mp hmem with h1 | h1
    · rcases List.mem_append.mp h1 with h2 | h2
      · exact absurd h2 (by decide)
      · exact hph.1 h2
    · by_cases hq : u.query = []
      · rw [if_pos hq] at h1
        simp at h1
      · rw [if_neg hq] at h1
        rcases List.mem_cons.mp h1 with h2 | h2
        · exact absurd h2 (by decide)
        · exact hph.2 h2

/-- C7 witness: `https://nitter.net/foo/status/1#m` parses, and the
canonicalizer forces `https://twitter.com`, keeps the path, and strips the
`#m` fragment. -/
theorem c7_rewrite_twitter_url_witness :
    parseURL (cl "https://nitter.net/foo/status/1#m") =
      some { scheme := cl "https", host := cl "nitter.net", path := cl "/foo/status/1",
             query := [], fragment := cl "m" }
    ∧ rewriteTwitterURLL (cl "https://nitter.net/foo/status/1#m") =
        cl "https://twitter.com/foo/status/1"
    ∧ ('#' : Char) ∉ rewriteTwitterURLL (cl "https://nitter.net/foo/status/1#m") := by
  have hp : parseURL (cl "https://nitter.net/foo/status/1#m") =
      some { scheme := cl "https", host := cl "nitter.net", path := cl "/foo/status/1",
             query := [], fragment := cl "m" } := by decide
  have h := (c7_rewrite_twitter_url (cl "https://nitter.net/foo/status/1#m")).2.1 _ hp
  exact ⟨hp, h.1.trans (by decide), h.2⟩

/-! ### C8: the static instance registry -/

theorem splitComma_ne_nil (cs : List Char) : splitComma cs ≠ [] := by
  induction cs with
  | nil => simp [splitComma]
  | cons c cs ih =>
    by_cases h : c = ','
    · simp [splitComma, h]
    · simp only [splitComma, if_neg h]
      cases hsc : splitComma cs with
      | nil => simp
      | cons seg rest => simp

theorem splitComma_append_comma (cs : List Char) :
    splitComma (cs ++ [',']) = splitComma cs ++ [[]] := by
  induction cs with
  | nil => rfl
  | cons c cs ih =>
    have ih' : splitComma (cs.append [',']) = splitComma cs ++ [[]] := ih
    by_cases h : c = ','
    · simp only [List.cons_append, splitComma, if_pos h]
      rw [ih']
    · simp only [List.cons_append, splitComma, if_neg h]
      rw [ih']
      cases hsc : splitComma cs with
      | nil => exact absurd hsc (splitComma_ne_nil cs)
      | cons seg rest => simp

theorem parseInstList_skips_empty :
    ∀ l : List (List Char),
      parseInstList l = parseInstList (l.filter (fun s => !s.isEmpty)) := by
  intro l
  induction l with
  | nil => rfl
  | cons seg rest ih =>
    by_cases h : seg = []
    · subst h
      have hf : List.filter (fun s => !s.isEmpty) (([] : List Char) :: rest) =
          List.filter (fun s => !s.isEmpty) rest := by
        simp [List.filter_cons]
      rw [hf]
      simp only [parseInstList, if_pos rfl]
      exact ih
    · have hne : (!seg.isEmpty) = true := by
        cases seg
        · exact absurd rfl h
        · rfl
      have hf : List.filter (fun s => !s.isEmpty) (seg :: rest) =
          seg :: List.filter (fun s => !s.isEmpty) rest := by
        simp [List.filter_cons, hne]
      rw [hf]
      simp only [parseInstList, if_neg h]
      cases hp : parseURL seg with
      | none => rfl
      | some u => rw [ih]

/-- C8: the static instance registry is built by splitting the configured
value on commas, skipping empty segments (so a trailing comma changes
nothing), failing at construction when the resulting sequence is empty; and
the static provider's two capability methods return the same fixed
sequence. -/
theorem c8_static_registry (cs : List Char) :
    newHandlerInstances (cs ++ [',']) = newHandlerInstances cs
    ∧ parseInstList (splitComma cs) =
        parseInstList ((splitComma cs).filter (fun seg => !seg.isEmpty))
    ∧ ((splitComma cs).filter (fun seg => !seg.isEmpty) = [] →
        newHandlerInstances cs = Except.error (cl "no instances supplied"))
    ∧ (∀ p : StaticProvider, GetAllInstances p = GetActiveInstances p) := by
  refine ⟨?_, parseInstList_skips_empty _, ?_, fun p => rfl⟩
  · have hsame : parseInstList (splitComma (cs ++ [','])) =
        parseInstList (splitComma cs) := by
      rw [splitComma_append_comma, parseInstList_skips_empty, List.filter_append]
      rw [show (([[]] : List (List Char)).filter (fun seg => !seg.isEmpty)) = [] from rfl]
      rw [List.append_nil, ← parseInstList_skips_empty]
    unfold newHandlerInstances
    rw [hsame]
  · intro hempty
    unfold newHandlerInstances
    rw [parseInstList_skips_empty, hempty]
    rfl

/-- C8 witness: a trailing comma is tolerated, an all-empty configuration
fails with the construction error, and the provider methods agree on a
concrete instance list. -/
theorem c8_static_registry_witness :
    newHandlerInstances (cl "https://nitter.net,") = newHandlerInstances (cl "https://nitter.net")
    ∧ newHandlerInstances (cl ",,") = Except.error (cl "no instances supplied")
    ∧ GetAllInstances { inst := [cl "https://nitter.net"] } =
        GetActiveInstances { inst := [cl "https://nitter.net"] } := by
  refine ⟨?_, (c8_static_registry (cl ",,")).2.2.1 (by decide),
    (c8_static_registry (cl "")).2.2.2 _⟩
  have h := (c8_static_registry (cl "https://nitter.net")).1
  exact (show newHandlerInstances (cl "https://nitter.net,") =
    newHandlerInstances (cl "https://nitter.net" ++ [',']) from rfl).trans h

/-! ### C9: the rotation cursor -/

/-- C9 counterexample: the starting-index read is not under the lock
(`start := hnd.start` precedes `hnd.mu.Lock()`), so read-then-advance is not
atomic.  In the valid interleaving where both requests read before either
advances (three instances, cursor 0), both observe starting index 0, and
request B's locked advance increments cursor value 1 — not the 0 it
observed. -/
theorem c9_read_not_atomic_counterexample :
    [CursorStep.readA, CursorStep.readB, CursorStep.advA, CursorStep.advB] ∈ interleavings
    ∧ (runCursor 3 (initCursor 0)
        [CursorStep.readA, CursorStep.readB, CursorStep.advA, CursorStep.advB]).obsA = some 0
    ∧ (runCursor 3 (initCursor 0)
        [CursorStep.readA, CursorStep.readB, CursorStep.advA, CursorStep.advB]).obsB = some 0
    ∧ (runCursor 3 (initCursor 0)
        [CursorStep.readA, CursorStep.readB, CursorStep.advA, CursorStep.advB]).baseB = some 1
    ∧ (runCursor 3 (initCursor 0)
        [CursorStep.readA, CursorStep.readB, CursorStep.advA, CursorStep.advB]).obsB ≠
      (runCursor 3 (initCursor 0)
        [CursorStep.readA, CursorStep.readB, CursorStep.advA, CursorStep.advB]).baseB := by
  decide

/-- C9 amended: only the increment-and-wrap runs under the lock, so the two
requests' advances serialize: in every interleaving the cursor ends at
`(start + 2) mod n`, and the two written cursor values are distinct whenever
`n ≥ 2`; the starting-index read, however, happens before the lock, so two
concurrent requests may observe the same starting index (see the
counterexample). -/
theorem c9_locked_advance_serializes (tr : List CursorStep) (n s : Nat)
    (htr : tr ∈ interleavings) (hn : 1 ≤ n) :
    (runCursor n (initCursor s) tr).cursor = (s + 2) % n
    ∧ (2 ≤ n →
        (runCursor n (initCursor s) tr).wrA ≠ (runCursor n (initCursor s) tr).wrB) := by
  have hkey : ((s + 1) % n + 1) % n = (s + 2) % n := by
    rw [Nat.mod_add_mod]
  have hdistinct : 2 ≤ n → ¬ ((s + 1) % n = (s + 2) % n) := by
    intro h2 heq
    have hmod : Nat.ModEq n (s + 1) (s + 2) := heq
    have hdvd : n ∣ (s + 2) - (s + 1) := (Nat.modEq_iff_dvd' (by omega)).mp hmod
    have h1 : (s + 2) - (s + 1) = 1 := by omega
    rw [h1] at hdvd
    have := Nat.le_of_dvd (by omega) hdvd
    omega
  simp only [interleavings, List.mem_cons, List.not_mem_nil, or_false] at htr
  rcases htr with rfl | rfl | rfl | rfl | rfl | rfl <;>
    refine ⟨by simp [runCursor, cursorStep, initCursor, hkey], fun h2 => ?_⟩ <;>
      simp only [runCursor, cursorStep, initCursor, hkey, ne_eq, Option.some.injEq] <;>
      first
        | exact hdistinct h2
        | exact fun heq => hdistinct h2 heq.symm

/-- C9 amended witness: in a concrete interleaving with three instances the
cursor ends at `(0 + 2) mod 3 = 2` and the two written values differ. -/
theorem c9_locked_advance_serializes_witness :
    (runCursor 3 (initCursor 0)
      [CursorStep.readA, CursorStep.readB, CursorStep.advA, CursorStep.advB]).cursor = 2
    ∧ (runCursor 3 (initCursor 0)
        [CursorStep.readA, CursorStep.readB, CursorStep.advA, CursorStep.advB]).wrA ≠
      (runCursor 3 (initCursor 0)
        [CursorStep.readA, CursorStep.readB, CursorStep.advA, CursorStep.advB]).wrB := by
  have h := c9_locked_advance_serializes
    [CursorStep.readA, CursorStep.readB, CursorStep.advA, CursorStep.advB] 3 0
    (by decide) (by decide)
  exact ⟨h.1.trans (by decide), h.2 (by decide)⟩

/-! ### C10: title truncation -/

/-- C10 counterexample: the literal appended by src/main.go line 260 is the
three-rune sequence `"â€¦"`, not a single ellipsis, so a title of 100 runes
is truncated to 82 runes — more than 80, and different from its first 79
runes followed by one ellipsis rune; the emitted item title has 82 runes. -/
theorem c10_single_ellipsis_counterexample :
    (truncTitle (List.replicate 100 'a')).length = 82
    ∧ ¬ ((truncTitle (List.replicate 100 'a')).length ≤ 80)
    ∧ truncTitle (List.replicate 100 'a') ≠ List.replicate 79 'a' ++ ['…']
    ∧ (buildItem false FeedFormat.atom
        { title := List.replicate 100 'a', link := [], guid := [],
          description := [] }).title.length = 82 := by
  decide

theorem truncTitle_length_le (t : List Char) : (truncTitle t).length ≤ 82 := by
  unfold truncTitle titleLen
  by_cases h : 80 < t.length
  · rw [if_pos h]
    simp only [List.length_append, List.length_take, List.length_cons, List.length_nil]
    omega
  · rw [if_neg h]
    omega

/-- C10 amended: every item in the emitted feed has a title of at most 82
runes: a parsed title of more than 80 runes is replaced by its first 79
runes plus the three-rune literal of src/main.go line 260 (`"â€¦"`, a
mojibake ellipsis), giving exactly 82 runes, and shorter titles pass
through unchanged. -/
theorem c10_title_truncation (t : List Char) :
    (truncTitle t).length ≤ 82
    ∧ (80 < t.length →
        truncTitle t = t.take 79 ++ ['â', '€', '¦'] ∧ (truncTitle t).length = 82)
    ∧ (t.length ≤ 80 → truncTitle t = t)
    ∧ (∀ (d : Bool) (fmt : FeedFormat) (oi : ParsedItem),
        (buildItem d fmt oi).title = truncTitle oi.title)
    ∧ (∀ (d : Bool) (fmt : FeedFormat) (f : ParsedFeed),
        ∀ it ∈ (buildFeed d fmt f).items, it.title.length ≤ 82) := by
  refine ⟨truncTitle_length_le t, ?_, ?_, fun d fmt oi => rfl, ?_⟩
  · intro h
    constructor
    · unfold truncTitle titleLen
      rw [if_pos h]
    · unfold truncTitle titleLen
      rw [if_pos h]
      simp only [List.length_append, List.length_take, List.length_cons, List.length_nil]
      omega
  · intro h
    unfold truncTitle titleLen
    rw [if_neg (by omega)]
  · intro d fmt f it hit
    rcases List.mem_map.mp hit with ⟨oi, _, rfl⟩
    exact truncTitle_length_le oi.title

/-- C10 amended witness: a 100-rune title is cut to its first 79 runes plus
the three mojibake runes (82 in total); a short title is unchanged. -/
theorem c10_title_truncation_witness :
    truncTitle (List.replicate 100 'a') = List.replicate 79 'a' ++ ['â', '€', '¦']
    ∧ (truncTitle (List.replicate 100 'a')).length = 82
    ∧ truncTitle (cl "short") = cl "short" :=
  ⟨(((c10_title_truncation (List.replicate 100 'a')).2.1 (by decide)).1).trans (by decide),
   ((c10_title_truncation (List.replicate 100 'a')).2.1 (by decide)).2,
   (c10_title_truncation (cl "short")).2.2.1 (by decide)⟩
